import Mathlib

/-!
Verification of the stream reconciliation and synchronization engine of
`braid-process-video` (file `src/braid-process-video/src/lib.rs`).

Timestamps are modelled as integers (nanoseconds), matching the
`chrono::DateTime` / `chrono::Duration` arithmetic of the source, which the
source itself reduces to `i64` nanoseconds via `num_nanoseconds()`.  A frame
of a video reader is represented by its host timestamp, and a reader (the
`Peek2` two-element lookahead cursor over the frame iterator) is represented
by the list of its remaining frame timestamps: `peek1` is the head, `peek2`
the second element, and `next` drops the head.  A `Peek2.unwrap()` panic is
modelled by `Option.none` in functions that may panic.

Floating point coordinates of detection rows only matter through whether
they are NaN (rejected by `ordered_float::NotNan::new`) or non-finite, so
they are modelled by an inductive type distinguishing NaN, the two
infinities, and finite rationals.
-/

namespace BraidProcessVideo

/-- A frame, identified by its host timestamp in nanoseconds. -/
abbrev Timestamp := Int

/-! ## Startup Aligner (`synchronize_readers_from`)

The inner loop of `synchronize_readers_from` for a single reader.  The
state is the list of remaining frame timestamps together with the running
`p1_delta` (absolute distance of the frame that was `peek1` when the
current loop iteration began).  A step peeks the second frame: if it is at
or after the start time, the loop keeps the first frame when
`p1_delta <= p2_delta` and otherwise advances once; if it is still before
the start time the loop advances and continues; if there is no second
frame, a single remaining frame is dropped. -/
def alignLoop (t p1Delta : Timestamp) (frames : List Timestamp) : List Timestamp :=
  match frames with
  | [] => []
  | [_] => []
  | f1 :: f2 :: rest =>
    if t ≤ f2 then
      if p1Delta ≤ |f2 - t| then f1 :: f2 :: rest else f2 :: rest
    else
      alignLoop t |f2 - t| (f2 :: rest)

/-- One reader's part of `synchronize_readers_from`: both `peek1()` and
`peek2()` are unwrapped before anything else (so fewer than two remaining
frames is a panic, modelled as `none`); if the first frame is at or after
the start time the reader is left as-is, otherwise the loop runs. -/
def synchronizeReader (t : Timestamp) (frames : List Timestamp) : Option (List Timestamp) :=
  match frames with
  | p1 :: _ :: _ =>
    some (if t ≤ p1 then frames else alignLoop t |p1 - t| frames)
  | _ => none

/-! ## Timing parameters (`run_config`, video path)

`frame_duration` is the configured value (microseconds, converted to a
`chrono::Duration`) or else the minimum over all readers of the delta
between the first two upcoming frames, each obtained by unwrapping `peek1`
and `peek2`; `sync_threshold` is the configured value or else half the
frame duration. -/

/-- The first-to-second upcoming frame delta of one reader, unwrapping both
peeks (`none` = panic). -/
def peekPairDelta (frames : List Timestamp) : Option Timestamp :=
  match frames with
  | p1 :: p2 :: _ => some (p2 - p1)
  | _ => none

/-- The per-reader deltas of all readers; any panic propagates. -/
def peekPairDeltas : List (List Timestamp) → Option (List Timestamp)
  | [] => some []
  | r :: rest =>
    match peekPairDelta r, peekPairDeltas rest with
    | some d, some ds => some (d :: ds)
    | _, _ => none

/-- `Iterator::min` followed by `unwrap`: `none` on an empty list is the
panic of the unwrap. -/
def listMin : List Timestamp → Option Timestamp
  | [] => none
  | d :: rest =>
    some (match listMin rest with
          | none => d
          | some m => min d m)

/-- Conversion of a configured microsecond count to nanoseconds, as
`chrono::Duration::from_std(Duration::from_micros(x))`. -/
def microsToNanos (x : Nat) : Timestamp := 1000 * (x : Int)

/-- The `(frame_duration, sync_threshold)` computation of `run_config`
(video path).  `none` models the panics of the unwraps inside the default
frame-duration computation. -/
def resolveTimingParams (cfgFrameDurationMicros cfgSyncThresholdMicros : Option Nat)
    (frameReaders : List (List Timestamp)) : Option (Timestamp × Timestamp) :=
  match (match cfgFrameDurationMicros with
         | some x => some (microsToNanos x)
         | none => (peekPairDeltas frameReaders).bind listMin) with
  | none => none
  | some fd =>
    some (fd, match cfgSyncThresholdMicros with
              | some x => microsToNanos x
              | none => fd / 2)

/-! ## Camera Identity Resolver (`run_config`, roster construction) -/

/-- The fields of `MovieCamId` that determine naming (the reader, full path
and frame0 time are not needed for identity resolution). -/
structure MovieCamId where
  filename : String
  cfgName : Option String
  title : Option String
  camFromFilename : Option String
deriving DecidableEq

/-- `BraidzCamId`: archive camera id string and archive camera number. -/
structure BraidzCamId where
  camIdStr : String
  camn : Nat
deriving DecidableEq

/-- `CameraIdentifier`: video-only, archive-only, or combined identity. -/
inductive CameraIdentifier where
  | movieOnly (m : MovieCamId)
  | braidzOnly (b : BraidzCamId)
  | both (m : MovieCamId) (b : BraidzCamId)
deriving DecidableEq

/-- `MovieCamId::raw_name`: the embedded title if present, else the camera
name extracted from the filename pattern, else nothing. -/
def MovieCamId.rawName (m : MovieCamId) : Option String :=
  match m.title with
  | some t => some t
  | none => m.camFromFilename

/-- One step of the roster-update loop: a movie-only camera whose raw name
equals the archive camera's id string becomes a combined identity; every
other identity is left unchanged. -/
def mergeBraidzCam (b : BraidzCamId) (c : CameraIdentifier) : CameraIdentifier :=
  match c with
  | .movieOnly m =>
    if some b.camIdStr = m.rawName then .both m b else .movieOnly m
  | other => other

/-- The `for braidz_cam_id in braidz_sources` loop of `run_config`: each
archive camera is matched in turn against every current roster entry. -/
def updateSourcesWithBraidz (sources : List CameraIdentifier)
    (bs : List BraidzCamId) : List CameraIdentifier :=
  bs.foldl (fun srcs b => srcs.map (mergeBraidzCam b)) sources

/-- Outcome of roster resolution in `run_config`: no usable input at all
(early `return Ok(vec![])`), archive-only mode, or video mode. -/
inductive RunResolution where
  | nothingToDo
  | braidzOnlyMode (roster : List CameraIdentifier)
  | videoMode (roster : List CameraIdentifier)
deriving DecidableEq

/-- Roster resolution of `run_config`: video sources are built first, then
updated against the archive roster; if the resulting roster is empty,
either every archive camera becomes an archive-only entry, or, with no
archive either, there is nothing to do. -/
def resolveRoster (videoCams : List MovieCamId)
    (braidzSources : Option (List BraidzCamId)) : RunResolution :=
  let sources := videoCams.map CameraIdentifier.movieOnly
  let sources := match braidzSources with
    | some bs => updateSourcesWithBraidz sources bs
    | none => sources
  if sources.isEmpty then
    match braidzSources with
    | some bs => .braidzOnlyMode (bs.map .braidzOnly)
    | none => .nothingToDo
  else
    .videoMode sources

/-- The early-return structure of `run_config`: when roster resolution
finds nothing to do, the run returns successfully with an empty list of
output paths; otherwise it proceeds to the merge stage. -/
inductive RunOutcome where
  | success (outputPaths : List String)
  | proceeds (resolution : RunResolution)
deriving DecidableEq

/-- `run_config` up to (and including) the early return for absent input. -/
def runConfigEarly (videoCams : List MovieCamId)
    (braidzSources : Option (List BraidzCamId)) : RunOutcome :=
  match resolveRoster videoCams braidzSources with
  | .nothingToDo => .success []
  | r => .proceeds r

/-! ## Per-moment fusion (`gather_frame_data`, `CopyExisting` branch) -/

/-- An `f64` value, abstracted to what `NotNan::new` and finiteness
distinguish: NaN, the two infinities, or a finite value (a rational). -/
inductive F64 where
  | nan
  | posInf
  | negInf
  | finite (q : Rat)
deriving DecidableEq

/-- Whether the value is NaN. -/
def F64.isNanB : F64 → Bool
  | .nan => true
  | _ => false

/-- Whether the value is finite (not NaN and not infinite). -/
def F64.isFiniteB : F64 → Bool
  | .finite _ => true
  | _ => false

/-- `ordered_float::NotNan::new`: fails exactly on NaN (infinities are
accepted). -/
def NotNan.new (v : F64) : Option F64 :=
  if v.isNanB then none else some v

/-- The fields of a `Data2dDistortedRow` used by the core: the archive
camera number and the 2D point coordinates. -/
structure Data2dDistortedRow where
  camn : Nat
  x : F64
  y : F64
deriving DecidableEq

/-- The row loop of `gather_frame_data` with the `CopyExisting`
feature-selection policy: per row, `if let Ok(x) = NotNan::new(row.x)`
appends `(x, NotNan::new(row.y).unwrap())` and otherwise skips the row.
The unwrap on `y` is a panic when `y` is NaN, modelled as `none`. -/
def appendRowPoints (rows : List Data2dDistortedRow) : Option (List (F64 × F64)) :=
  match rows with
  | [] => some []
  | row :: rest =>
    match NotNan.new row.x with
    | some x =>
      match NotNan.new row.y with
      | some y => (appendRowPoints rest).map (fun ps => (x, y) :: ps)
      | none => none
    | none => appendRowPoints rest

/-! ## Synchronized moments (`SyncedPictures`) and the output loop -/

/-- `OutTimepointPerCamera`: one camera's contribution to a moment.  The
image is represented by its frame timestamp when present. -/
structure OutTimepointPerCamera where
  timestamp : Timestamp
  image : Option Timestamp
  thisCamThisFrame : List Data2dDistortedRow
deriving DecidableEq

/-- `SyncedPictures`: one synchronized moment — a timestamp, one
per-camera entry per roster camera, and the archive trigger timestamp when
the archive supplied the timing. -/
structure SyncedPictures where
  timestamp : Timestamp
  cameraPictures : List OutTimepointPerCamera
  braidzInfo : Option Timestamp
deriving DecidableEq

/-- The output loop of `run_config` restricted to which moments reach
fusion/output: the moment iterator is trimmed with `take(max_num_frames)`
when a cap is configured, and moments with index below
`skip_n_first_output_frames` are skipped by `continue` before fusion. -/
def momentsForFusion (moments : List SyncedPictures)
    (maxNumFrames skipNFirst : Option Nat) : List SyncedPictures :=
  let trimmed := match maxNumFrames with
    | some n => moments.take n
    | none => moments
  trimmed.enum.filterMap (fun p =>
    match skipNFirst with
    | some s => if p.1 < s then none else some p.2
    | none => some p.2)

/-! ## Stream Merge Engine

Modelled from the spec: the merge iterators (`synced_iter::SyncedIter`,
`braidz_iter::BraidArchiveNoVideoData`, and
`braidz_iter::BraidArchiveSyncVideoData`) live in the modules
`synced_iter.rs` / `braidz_iter.rs`, which are declared by `lib.rs` but are
not part of the available sources, so they are modelled from §4.4 of the
specification. -/

/-- Modelled from the spec: one camera's contribution to a free-running
moment — the first upcoming frame is consumed exactly when its timestamp
is within the sync threshold of the moment clock; otherwise the cursor is
left alone for this moment. -/
def takeWithin (threshold clock : Timestamp) (frames : List Timestamp) :
    Option Timestamp × List Timestamp :=
  match frames with
  | [] => (none, [])
  | f :: rest => if |f - clock| ≤ threshold then (some f, rest) else (none, f :: rest)

/-- Modelled from the spec: the per-camera picture of a free-running
moment; a camera with no frame inside the window contributes a `none`
image and an empty detection list at the moment clock. -/
def freeRunPic (threshold clock : Timestamp) (frames : List Timestamp) :
    OutTimepointPerCamera :=
  match (takeWithin threshold clock frames).1 with
  | some f => ⟨f, some f, []⟩
  | none => ⟨clock, none, []⟩

/-- Modelled from the spec: the free-running merge (`SyncedIter`, Mode B).
Per emitted moment, every cursor contributes at most its first upcoming
frame when within the threshold of the moment clock, and the clock then
advances by one nominal frame duration.  The merge ends when every cursor
is exhausted; the extra fuel argument bounds the recursion. -/
def freeRunMerge (threshold frameDuration : Timestamp) :
    Nat → Timestamp → List (List Timestamp) → List SyncedPictures
  | 0, _, _ => []
  | fuel + 1, clock, cursors =>
    if cursors.all List.isEmpty then []
    else
      ⟨clock, cursors.map (freeRunPic threshold clock), none⟩ ::
        freeRunMerge threshold frameDuration fuel (clock + frameDuration)
          (cursors.map (fun c => (takeWithin threshold clock c).2))

/-- Modelled from the spec: one archive moment — a trigger timestamp plus
the 2D-detection rows associated with it (each row tagged with its camera
number). -/
structure ArchiveMoment where
  triggerTimestamp : Timestamp
  rows : List Data2dDistortedRow
deriving DecidableEq

/-- Modelled from the spec: the archive-driven merge with no video
(`BraidArchiveNoVideoData`, Mode A).  Each archive moment becomes a
synchronized moment with one entry per roster camera number, in roster
order, holding no image and that camera's rows. -/
def archiveMerge (camns : List Nat) (moments : List ArchiveMoment) :
    List SyncedPictures :=
  moments.map (fun am =>
    ⟨am.triggerTimestamp,
     camns.map (fun camn =>
       ⟨am.triggerTimestamp, none, am.rows.filter (fun r => r.camn == camn)⟩),
     some am.triggerTimestamp⟩)

/-- Modelled from the spec: the hybrid archive-driven video pull — frames
strictly before the sync window are consumed and dropped, a frame inside
the window is consumed as this moment's image, and a frame beyond the
window is left for a later moment. -/
def pullWithin (threshold trig : Timestamp) : List Timestamp →
    Option Timestamp × List Timestamp
  | [] => (none, [])
  | f :: rest =>
    if f < trig - threshold then pullWithin threshold trig rest
    else if f ≤ trig + threshold then (some f, rest)
    else (none, f :: rest)

/-- Modelled from the spec: the per-camera picture of a hybrid
archive-driven moment: the pulled video frame (if any) plus the rows of
this camera number. -/
def archiveSyncPic (am : ArchiveMoment) (camn : Nat) (pull : Option Timestamp) :
    OutTimepointPerCamera :=
  ⟨pull.getD am.triggerTimestamp, pull, am.rows.filter (fun r => r.camn == camn)⟩

/-- Modelled from the spec: the archive-driven merge with video readers
(`BraidArchiveSyncVideoData`, Mode A hybrid).  Moments follow the archive
trigger timestamps; per camera, the video cursor contributes the frame
pulled within the sync window of the trigger timestamp. -/
def archiveSyncMerge (camns : List Nat) (threshold : Timestamp) :
    List ArchiveMoment → List (List Timestamp) → List SyncedPictures
  | [], _ => []
  | am :: rest, cursors =>
    ⟨am.triggerTimestamp,
     (camns.zip (cursors.map (pullWithin threshold am.triggerTimestamp))).map
       (fun p => archiveSyncPic am p.1 p.2.1),
     some am.triggerTimestamp⟩ ::
      archiveSyncMerge camns threshold rest
        ((cursors.map (pullWithin threshold am.triggerTimestamp)).map Prod.snd)

/-! ## Theorems -/

/-- C9: when neither video inputs nor an archive are supplied, the run
yields an empty camera roster and returns successfully with an empty list
of output paths — "nothing to do", not an error. -/
theorem c9_no_input_success : runConfigEarly [] none = .success [] := rfl

/-- C8: when a maximum output-frame cap `max_num_frames = N` is configured
(and no leading frames are skipped), exactly `N` moments are passed to
fusion/output, provided the merge engine can produce at least `N`. -/
theorem c8_max_num_frames_cap (moments : List SyncedPictures) (n : Nat)
    (h : n ≤ moments.length) :
    (momentsForFusion moments (some n) none).length = n := by
  unfold momentsForFusion
  rw [show (fun p : Nat × SyncedPictures => some p.2) = (some ∘ fun p : Nat × SyncedPictures => p.2) from rfl,
    List.filterMap_eq_map, List.enum_map_snd, List.length_take]
  omega

/-- Witness for C8 at a concrete input. -/
theorem c8_witness :
    (momentsForFusion [⟨0, [], none⟩, ⟨1, [], none⟩, ⟨2, [], none⟩] (some 2) none).length = 2 :=
  c8_max_num_frames_cap [⟨0, [], none⟩, ⟨1, [], none⟩, ⟨2, [], none⟩] 2 (by decide)

/-- C7 counterexample: a cursor holding a single frame at or after the
target start time is not left unchanged — the unconditional `peek2()`
unwrap panics (modelled as `none`), so re-running the aligner on it is not
a no-op. -/
theorem c7_counterexample :
    (0 : Timestamp) ≤ 5 ∧ synchronizeReader 0 [5] = none ∧
      synchronizeReader 0 [5] ≠ some [5] := by decide

/-- C7 (amended): for every cursor with at least two upcoming frames whose
first frame's timestamp is at or after the target start time, the Startup
Aligner leaves the cursor unchanged, so re-running it on such an
already-aligned cursor is a no-op. -/
theorem c7_aligned_cursor_unchanged (t p1 p2 : Timestamp) (rest : List Timestamp)
    (h : t ≤ p1) :
    synchronizeReader t (p1 :: p2 :: rest) = some (p1 :: p2 :: rest) := by
  simp [synchronizeReader, h]

/-- Witness for C7 at a concrete input. -/
theorem c7_witness : synchronizeReader 0 [1, 2] = some [1, 2] :=
  c7_aligned_cursor_unchanged 0 1 2 [] (by decide)

/-- C4: for a cursor whose first two upcoming frames straddle the target
start time (first strictly before, second at or after), the aligner keeps
positioned as first whichever of the two frames is closer in absolute time
to the target, advancing exactly once only when the second is strictly
closer; an exact tie keeps the earlier frame. -/
theorem c4_closest_match (t f1 f2 : Timestamp) (rest : List Timestamp)
    (h1 : f1 < t) (h2 : t ≤ f2) :
    synchronizeReader t (f1 :: f2 :: rest) =
      some (if |f2 - t| < |f1 - t| then f2 :: rest else f1 :: f2 :: rest) := by
  have hn : ¬ t ≤ f1 := not_le.mpr h1
  rw [synchronizeReader, if_neg hn, alignLoop, if_pos h2]
  by_cases hc : |f1 - t| ≤ |f2 - t|
  · rw [if_pos hc, if_neg (not_lt.mpr hc)]
  · rw [if_neg hc, if_pos (not_le.mp hc)]

/-- Witness for C4 at a concrete input: target 10, frames 5 and 11; the
second frame is strictly closer, so the aligner advances once. -/
theorem c4_witness : synchronizeReader 10 [5, 11] = some [11] := by
  have h := c4_closest_match 10 5 11 [] (by decide) (by decide)
  rw [h]; decide

/-- C5 counterexample: a detection row with the non-finite coordinate
`+inf` is not skipped — `NotNan::new` rejects only NaN, so the row is
appended. -/
theorem c5_counterexample :
    F64.isFiniteB .posInf = false ∧
    appendRowPoints [⟨0, .posInf, .finite 0⟩] = some [(.posInf, .finite 0)] ∧
    appendRowPoints [⟨0, .posInf, .finite 0⟩] ≠ some [] := by decide

/-- C5 (amended): during per-moment fusion with the pass-through policy, a
detection row whose `x` coordinate is NaN is silently skipped and all
remaining rows of the camera are still appended; rows whose `x` is not NaN
are appended even when a coordinate is infinite, and the unwrap on `y`
panics only when `y` is NaN while `x` is not (excluded by the
hypothesis). -/
theorem c5_nan_x_rows_skipped (rows : List Data2dDistortedRow)
    (hy : ∀ r ∈ rows, r.y.isNanB = true → r.x.isNanB = true) :
    appendRowPoints rows =
      some ((rows.filter (fun r => !r.x.isNanB)).map (fun r => (r.x, r.y))) := by
  induction rows with
  | nil => rfl
  | cons row rest ih =>
    have hrest : ∀ r ∈ rest, r.y.isNanB = true → r.x.isNanB = true :=
      fun r hr => hy r (List.mem_cons_of_mem _ hr)
    by_cases hx : row.x.isNanB = true
    · rw [appendRowPoints, NotNan.new, if_pos hx]
      rw [List.filter_cons_of_neg (by simp [hx])]
      exact ih hrest
    · have hyn : ¬ row.y.isNanB = true := fun hyy => hx (hy row (List.mem_cons_self _ _) hyy)
      rw [appendRowPoints, NotNan.new, if_neg hx, NotNan.new, if_neg hyn, ih hrest]
      rw [List.filter_cons_of_pos (by simp [hx])]
      rfl

/-- Witness for C5 at a concrete input: a both-NaN row is skipped, the
remaining row is appended. -/
theorem c5_witness :
    appendRowPoints [⟨0, .nan, .nan⟩, ⟨1, .finite 1, .finite 2⟩] =
      some [(.finite 1, .finite 2)] := by
  have h := c5_nan_x_rows_skipped [⟨0, .nan, .nan⟩, ⟨1, .finite 1, .finite 2⟩] (by decide)
  rw [h]; decide

/-- `listMin` returns an element of its input. -/
lemma listMin_mem (l : List Timestamp) (m : Timestamp) (h : listMin l = some m) :
    m ∈ l := by
  induction l generalizing m with
  | nil => simp [listMin] at h
  | cons d rest ih =>
    rw [listMin] at h
    cases hrec : listMin rest with
    | none =>
      rw [hrec] at h
      have hm := Option.some.inj h
      exact hm ▸ List.mem_cons_self _ _
    | some mr =>
      rw [hrec] at h
      have hm : min d mr = m := Option.some.inj h
      rcases le_total d mr with hle | hle
      · have hd : m = d := by rw [← hm, min_eq_left hle]
        exact hd ▸ List.mem_cons_self _ _
      · have hd : m = mr := by rw [← hm, min_eq_right hle]
        exact List.mem_cons_of_mem _ (hd ▸ ih mr hrec)

/-- `listMin` is a lower bound of its input. -/
lemma listMin_le (l : List Timestamp) (m : Timestamp) (h : listMin l = some m) :
    ∀ d ∈ l, m ≤ d := by
  induction l generalizing m with
  | nil => simp
  | cons d rest ih =>
    intro e he
    rw [listMin] at h
    cases hrec : listMin rest with
    | none =>
      rw [hrec] at h
      have hm : d = m := Option.some.inj h
      cases rest with
      | nil =>
        rcases List.mem_singleton.mp he with rfl
        exact hm.ge
      | cons x xs => rw [listMin] at hrec; simp at hrec
    | some mr =>
      rw [hrec] at h
      have hm : min d mr = m := Option.some.inj h
      rcases List.mem_cons.mp he with rfl | hmem
      · rw [← hm]; exact min_le_left _ _
      · rw [← hm]; exact le_trans (min_le_right _ _) (ih mr hrec e hmem)

/-- A nonempty list has a minimum. -/
lemma listMin_isSome (l : List Timestamp) (h : l ≠ []) :
    ∃ m, listMin l = some m := by
  cases l with
  | nil => exact absurd rfl h
  | cons d rest => exact ⟨_, rfl⟩

/-- C6: in free-running merge mode, the sync threshold is the configured
value when one is given and otherwise half the nominal frame duration; the
nominal frame duration is the configured value when one is given and
otherwise the minimum over all camera cursors of the delta between the
first two upcoming frames. -/
theorem c6_timing_defaults (cfgFd cfgSt : Option Nat) (readers : List (List Timestamp))
    (fd st : Timestamp)
    (h : resolveTimingParams cfgFd cfgSt readers = some (fd, st)) :
    (∀ x, cfgFd = some x → fd = microsToNanos x) ∧
    (cfgFd = none → ∃ deltas, peekPairDeltas readers = some deltas ∧
        fd ∈ deltas ∧ ∀ d ∈ deltas, fd ≤ d) ∧
    (∀ x, cfgSt = some x → st = microsToNanos x) ∧
    (cfgSt = none → st = fd / 2) := by
  cases cfgFd with
  | some x =>
    cases cfgSt with
    | some y =>
      simp only [resolveTimingParams, Option.some.injEq, Prod.mk.injEq] at h
      exact ⟨fun z hz => by cases hz; exact h.1.symm, by simp, fun z hz => by
        cases hz; exact h.2.symm, by simp⟩
    | none =>
      simp only [resolveTimingParams, Option.some.injEq, Prod.mk.injEq] at h
      exact ⟨fun z hz => by cases hz; exact h.1.symm, by simp, by simp,
        fun _ => by rw [← h.2, ← h.1]⟩
  | none =>
    cases hds : peekPairDeltas readers with
    | none =>
      simp only [resolveTimingParams, hds, Option.none_bind] at h
      exact Option.noConfusion h
    | some deltas =>
      cases hmin : listMin deltas with
      | none =>
        simp only [resolveTimingParams, hds, Option.some_bind, hmin] at h
        exact Option.noConfusion h
      | some mv =>
        cases cfgSt with
        | some y =>
          simp only [resolveTimingParams, hds, Option.some_bind, hmin,
            Option.some.injEq, Prod.mk.injEq] at h
          refine ⟨fun z hz => Option.noConfusion hz, fun _ => ?_,
            fun z hz => ?_, fun hz => Option.noConfusion hz⟩
          · exact ⟨deltas, rfl, h.1 ▸ listMin_mem deltas mv hmin,
              fun d hd => h.1 ▸ listMin_le deltas mv hmin d hd⟩
          · cases hz
            exact h.2.symm
        | none =>
          simp only [resolveTimingParams, hds, Option.some_bind, hmin,
            Option.some.injEq, Prod.mk.injEq] at h
          refine ⟨fun z hz => Option.noConfusion hz, fun _ => ?_,
            fun z hz => Option.noConfusion hz, fun _ => ?_⟩
          · exact ⟨deltas, rfl, h.1 ▸ listMin_mem deltas mv hmin,
              fun d hd => h.1 ▸ listMin_le deltas mv hmin d hd⟩
          · rw [← h.2, ← h.1]

/-- Witness for C6 at a concrete input: no configured values, reader
deltas 10 and 4, so frame duration 4 and threshold 2. -/
theorem c6_witness :
    resolveTimingParams none none [[0, 10], [0, 4]] = some (4, 2) ∧
    (4 : Timestamp) ∈ [(10 : Timestamp), 4] ∧ (2 : Timestamp) = 4 / 2 := by
  refine ⟨by decide, ?_, by decide⟩
  obtain ⟨-, h2, -, -⟩ := c6_timing_defaults none none [[0, 10], [0, 4]] 4 2 (by decide)
  obtain ⟨deltas, hd, hmem, -⟩ := h2 rfl
  have hde : deltas = [10, 4] := by
    rw [show peekPairDeltas [[0, 10], [0, 4]] = some [10, 4] from by decide] at hd
    exact (Option.some.inj hd).symm
  exact hde ▸ hmem

/-- A reader with fewer than two frames panics the peek-pair unwraps. -/
lemma peekPairDelta_none_of_short (r : List Timestamp) (h : r.length < 2) :
    peekPairDelta r = none := by
  match r with
  | [] => rfl
  | [_] => rfl
  | _ :: _ :: _ => simp at h; omega

/-- A short reader anywhere in the list makes the whole delta computation
panic. -/
lemma peekPairDeltas_none_of_mem (readers : List (List Timestamp))
    (r : List Timestamp) (hr : r ∈ readers) (h : peekPairDelta r = none) :
    peekPairDeltas readers = none := by
  induction readers with
  | nil => simp at hr
  | cons a rest ih =>
    rcases List.mem_cons.mp hr with rfl | hmem
    · rw [peekPairDeltas, h]
    · rw [peekPairDeltas, ih hmem]
      cases peekPairDelta a <;> rfl

/-- With two frames available everywhere, the delta computation succeeds
and produces one delta per reader. -/
lemma peekPairDeltas_some_of_long (readers : List (List Timestamp))
    (h : ∀ r ∈ readers, 2 ≤ r.length) :
    ∃ ds, peekPairDeltas readers = some ds ∧ ds.length = readers.length := by
  induction readers with
  | nil => exact ⟨[], rfl, rfl⟩
  | cons a rest ih =>
    obtain ⟨ds, hds, hlen⟩ := ih (fun r hr => h r (List.mem_cons_of_mem _ hr))
    have ha : 2 ≤ a.length := h a (List.mem_cons_self _ _)
    match a, ha with
    | p1 :: p2 :: tl, _ =>
      refine ⟨(p2 - p1) :: ds, ?_, by simp [hlen]⟩
      rw [peekPairDeltas, hds]
      rfl

/-- C10: in the video-only path, the default frame-duration computation
and the Startup Aligner both unconditionally unwrap the first two peeks of
every camera cursor, so the run panics (modelled as `none`) as soon as any
supplied video source has fewer than two frames left, and both steps
succeed when every source still has at least two frames. -/
theorem c10_two_frames_required (cfgSt : Option Nat) (t : Timestamp)
    (readers : List (List Timestamp)) :
    ((∃ r ∈ readers, r.length < 2) →
        resolveTimingParams none cfgSt readers = none) ∧
    (∀ r ∈ readers, r.length < 2 → synchronizeReader t r = none) ∧
    (readers ≠ [] → (∀ r ∈ readers, 2 ≤ r.length) →
        (∃ p, resolveTimingParams none cfgSt readers = some p) ∧
        (∀ r ∈ readers, ∃ out, synchronizeReader t r = some out)) := by
  refine ⟨?_, ?_, ?_⟩
  · rintro ⟨r, hr, hshort⟩
    have hnone := peekPairDeltas_none_of_mem readers r hr
      (peekPairDelta_none_of_short r hshort)
    simp [resolveTimingParams, hnone]
  · intro r _ hshort
    match r, hshort with
    | [], _ => rfl
    | [_], _ => rfl
  · intro hne hlong
    obtain ⟨ds, hds, hlen⟩ := peekPairDeltas_some_of_long readers hlong
    have hdne : ds ≠ [] := by
      intro hd
      apply hne
      cases readers with
      | nil => rfl
      | cons a rest => rw [hd] at hlen; simp at hlen
    obtain ⟨mv, hmv⟩ := listMin_isSome ds hdne
    refine ⟨⟨(mv, match cfgSt with
                  | some x => microsToNanos x
                  | none => mv / 2), ?_⟩, ?_⟩
    · simp [resolveTimingParams, hds, hmv]
    · intro r hr
      have h2 := hlong r hr
      match r, h2 with
      | p1 :: p2 :: tl, _ => exact ⟨_, rfl⟩

/-- Witness for C10 at a concrete input: a single one-frame video source
panics both the duration computation and the aligner. -/
theorem c10_witness :
    resolveTimingParams none none [[0]] = none ∧
    synchronizeReader 0 [0] = none := by
  obtain ⟨h1, h2, -⟩ := c10_two_frames_required none 0 [[0]]
  exact ⟨h1 ⟨[0], by decide, by decide⟩, h2 [0] (by decide) (by decide)⟩

/-- The cumulative effect of the archive loop on one roster entry. -/
def applyBraidzCams (bs : List BraidzCamId) (c : CameraIdentifier) : CameraIdentifier :=
  bs.foldl (fun c b => mergeBraidzCam b c) c

/-- The archive loop rewrites each roster entry independently. -/
lemma updateSources_eq_map (sources : List CameraIdentifier) (bs : List BraidzCamId) :
    updateSourcesWithBraidz sources bs = sources.map (applyBraidzCams bs) := by
  induction bs generalizing sources with
  | nil =>
    show sources = _
    rw [show applyBraidzCams [] = id from rfl, List.map_id]
  | cons b rest ih =>
    rw [updateSourcesWithBraidz, List.foldl_cons]
    rw [show List.foldl (fun srcs b => srcs.map (mergeBraidzCam b))
          (sources.map (mergeBraidzCam b)) rest =
        updateSourcesWithBraidz (sources.map (mergeBraidzCam b)) rest from rfl]
    rw [ih, List.map_map]
    rfl

/-- A combined identity is never touched again by the archive loop. -/
lemma applyBraidzCams_both (bs : List BraidzCamId) (m : MovieCamId) (bb : BraidzCamId) :
    applyBraidzCams bs (.both m bb) = .both m bb := by
  induction bs with
  | nil => rfl
  | cons b rest ih => rw [applyBraidzCams, List.foldl_cons]; exact ih

/-- The archive loop merges a movie-only camera with the first archive
camera whose id string equals the camera's raw name, and leaves it
movie-only when no archive camera matches. -/
lemma applyBraidzCams_movieOnly (bs : List BraidzCamId) (m : MovieCamId) :
    applyBraidzCams bs (.movieOnly m) =
      match bs.find? (fun b => decide (some b.camIdStr = m.rawName)) with
      | some b => .both m b
      | none => .movieOnly m := by
  induction bs with
  | nil => rfl
  | cons b rest ih =>
    by_cases hb : some b.camIdStr = m.rawName
    · rw [applyBraidzCams, List.foldl_cons,
        show mergeBraidzCam b (.movieOnly m) = .both m b from by
          rw [mergeBraidzCam, if_pos hb],
        show List.foldl (fun c b => mergeBraidzCam b c) (.both m b) rest =
          applyBraidzCams rest (.both m b) from rfl,
        applyBraidzCams_both,
        List.find?_cons_of_pos _ (by simpa using hb)]
    · rw [applyBraidzCams, List.foldl_cons,
        show mergeBraidzCam b (.movieOnly m) = .movieOnly m from by
          rw [mergeBraidzCam, if_neg hb],
        show List.foldl (fun c b => mergeBraidzCam b c) (.movieOnly m) rest =
          applyBraidzCams rest (.movieOnly m) from rfl,
        ih, List.find?_cons_of_neg _ (by simpa using hb)]

/-- C3 counterexample: with one video camera (raw name `CamA`) and one
archive camera (`CamB`) that matches no video camera, the archive camera
is not retained in the roster — the resulting roster holds only the
video-only entry, contradicting the claim that an unmatched archive camera
is retained separately. -/
theorem c3_counterexample :
    resolveRoster [⟨"movie20211108_084523_CamA.mkv", none, none, some "CamA"⟩]
        (some [⟨"CamB", 5⟩]) =
      .videoMode [.movieOnly ⟨"movie20211108_084523_CamA.mkv", none, none, some "CamA"⟩] ∧
    CameraIdentifier.braidzOnly ⟨"CamB", 5⟩ ∉
      [CameraIdentifier.movieOnly ⟨"movie20211108_084523_CamA.mkv", none, none, some "CamA"⟩] := by
  constructor
  · rfl
  · decide

/-- C3 (amended): the Camera Identity Resolver merges a video camera with
an archive camera into a combined identity exactly when the video camera's
resolved raw name (embedded title if present, else the filename-pattern
name) is exactly string-equal to the archive camera's id string (the first
such archive camera, case-sensitive, no fuzzy matching); an unmatched
video camera remains video-only.  An archive camera matching no video
camera is retained as a separate archive-only entry only when no video
cameras were supplied at all; otherwise it is dropped from the roster. -/
theorem c3_identity_resolver_join (videoCams : List MovieCamId) (bs : List BraidzCamId) :
    (videoCams ≠ [] →
      resolveRoster videoCams (some bs) = .videoMode (videoCams.map (fun m =>
        match bs.find? (fun b => decide (some b.camIdStr = m.rawName)) with
        | some b => .both m b
        | none => .movieOnly m))) ∧
    (videoCams = [] →
      resolveRoster videoCams (some bs) = .braidzOnlyMode (bs.map .braidzOnly)) := by
  constructor
  · intro hne
    rw [resolveRoster, updateSources_eq_map, List.map_map]
    have hempty : ((videoCams.map (applyBraidzCams bs ∘ CameraIdentifier.movieOnly)).isEmpty) = false := by
      rw [List.isEmpty_eq_false_iff_exists_mem]
      cases videoCams with
      | nil => exact absurd rfl hne
      | cons a rest => exact ⟨_, List.mem_map_of_mem _ (List.mem_cons_self _ _)⟩
    rw [hempty]
    simp only [Bool.false_eq_true, if_false]
    congr 1
    exact List.map_congr_left (fun m _ => applyBraidzCams_movieOnly bs m)
  · intro he
    subst he
    rw [resolveRoster, updateSources_eq_map]
    rfl

/-- Witness for C3 at a concrete input: a video camera whose raw name
exactly equals the archive id `CamA` is merged into a combined
identity. -/
theorem c3_witness :
    resolveRoster [⟨"movie20211108_084523_CamA.mkv", none, none, some "CamA"⟩]
        (some [⟨"CamA", 1⟩]) =
      .videoMode [.both ⟨"movie20211108_084523_CamA.mkv", none, none, some "CamA"⟩
        ⟨"CamA", 1⟩] := by
  have h := (c3_identity_resolver_join
    [⟨"movie20211108_084523_CamA.mkv", none, none, some "CamA"⟩] [⟨"CamA", 1⟩]).1
    (by decide)
  rw [h]
  rfl

/-- A frame consumed by `takeWithin` comes from the cursor. -/
lemma takeWithin_fst_mem (threshold clock : Timestamp) (frames : List Timestamp)
    (f : Timestamp) (h : (takeWithin threshold clock frames).1 = some f) :
    f ∈ frames := by
  cases frames with
  | nil => simp [takeWithin] at h
  | cons g rest =>
    rw [takeWithin] at h
    by_cases hc : |g - clock| ≤ threshold
    · rw [if_pos hc] at h
      obtain rfl : g = f := Option.some.inj h
      exact List.mem_cons_self _ _
    · rw [if_neg hc] at h
      exact absurd h (by simp)

/-- The cursor left by `takeWithin` only holds frames of the original
cursor. -/
lemma takeWithin_snd_subset (threshold clock : Timestamp) (frames : List Timestamp)
    (f : Timestamp) (h : f ∈ (takeWithin threshold clock frames).2) :
    f ∈ frames := by
  cases frames with
  | nil => simp [takeWithin] at h
  | cons g rest =>
    rw [takeWithin] at h
    by_cases hc : |g - clock| ≤ threshold
    · rw [if_pos hc] at h
      exact List.mem_cons_of_mem _ h
    · rw [if_neg hc] at h
      exact h

/-- A free-running per-camera picture never carries detection rows. -/
lemma freeRunPic_rows (threshold clock : Timestamp) (frames : List Timestamp) :
    (freeRunPic threshold clock frames).thisCamThisFrame = [] := by
  unfold freeRunPic
  split <;> rfl

/-- The image of a free-running per-camera picture is a frame of that
camera's cursor. -/
lemma freeRunPic_image_mem (threshold clock : Timestamp) (frames : List Timestamp)
    (f : Timestamp) (h : (freeRunPic threshold clock frames).image = some f) :
    f ∈ frames := by
  unfold freeRunPic at h
  split at h
  next g heq =>
    obtain rfl : g = f := Option.some.inj h
    exact takeWithin_fst_mem _ _ _ _ heq
  next heq => exact absurd h (by simp)

/-- Roster invariant of the free-running merge: every emitted moment has
one entry per cursor, in cursor order; an entry's image only ever comes
from its own camera's cursor, and an imageless entry has no detection
rows. -/
lemma freeRunMerge_roster (threshold frameDuration : Timestamp) (fuel : Nat) :
    ∀ (clock : Timestamp) (cursors : List (List Timestamp)),
      ∀ m ∈ freeRunMerge threshold frameDuration fuel clock cursors,
        m.cameraPictures.length = cursors.length ∧
        ∀ i (hi : i < cursors.length),
          ∃ pic, m.cameraPictures[i]? = some pic ∧
            (pic.image = none → pic.thisCamThisFrame = []) ∧
            ∀ f, pic.image = some f → f ∈ cursors[i] := by
  induction fuel with
  | zero => intro clock cursors m hm; rw [freeRunMerge] at hm; simp at hm
  | succ fuel ih =>
    intro clock cursors m hm
    rw [freeRunMerge] at hm
    by_cases hall : cursors.all List.isEmpty
    · rw [if_pos hall] at hm; simp at hm
    · rw [if_neg hall] at hm
      rcases List.mem_cons.mp hm with rfl | hmem
      · refine ⟨by simp, ?_⟩
        intro i hi
        refine ⟨freeRunPic threshold clock cursors[i], ?_, ?_, ?_⟩
        · show (cursors.map (freeRunPic threshold clock))[i]? = _
          rw [List.getElem?_map, List.getElem?_eq_getElem hi]
          rfl
        · intro _; exact freeRunPic_rows threshold clock cursors[i]
        · exact fun f hf => freeRunPic_image_mem threshold clock cursors[i] f hf
      · have hrec := ih (clock + frameDuration)
          (cursors.map fun c => (takeWithin threshold clock c).2) m hmem
        refine ⟨by rw [hrec.1, List.length_map], ?_⟩
        intro i hi
        have hi' : i < (cursors.map fun c => (takeWithin threshold clock c).2).length := by
          rw [List.length_map]; exact hi
        obtain ⟨pic, hpic, hrows, himg⟩ := hrec.2 i hi'
        refine ⟨pic, hpic, hrows, ?_⟩
        intro f hf
        have hmem2 := himg f hf
        rw [List.getElem_map] at hmem2
        exact takeWithin_snd_subset threshold clock cursors[i] f hmem2

/-- Every moment of the archive-only merge is the image of an archive
moment: trigger timestamp, one imageless entry per roster camera number in
roster order, each holding that camera's rows. -/
lemma archiveMerge_mem (camns : List Nat) (ams : List ArchiveMoment)
    (m : SyncedPictures) (hm : m ∈ archiveMerge camns ams) :
    ∃ am ∈ ams,
      m = ⟨am.triggerTimestamp,
           camns.map (fun camn =>
             ⟨am.triggerTimestamp, none, am.rows.filter (fun r => r.camn == camn)⟩),
           some am.triggerTimestamp⟩ := by
  obtain ⟨am, ham, heq⟩ := List.mem_map.mp hm
  exact ⟨am, ham, heq.symm⟩

/-- Indexing a zip of two sufficiently long lists. -/
lemma getElem?_zip_eq {α β : Type} (l₁ : List α) (l₂ : List β) (i : Nat)
    (h₁ : i < l₁.length) (h₂ : i < l₂.length) :
    (l₁.zip l₂)[i]? = some (l₁[i], l₂[i]) := by
  induction l₁ generalizing l₂ i with
  | nil => simp at h₁
  | cons a tl ih =>
    cases l₂ with
    | nil => simp at h₂
    | cons b tl₂ =>
      cases i with
      | zero => simp [List.zip_cons_cons]
      | succ j =>
        rw [List.zip_cons_cons]
        simp only [List.getElem?_cons_succ, List.getElem_cons_succ]
        exact ih tl₂ j (by simpa using h₁) (by simpa using h₂)

/-- Roster invariant of the hybrid archive-driven merge: every emitted
moment carries the trigger timestamp of an archive moment and one entry
per roster camera number, in roster order, holding the pulled video frame
(possibly `none`) and that camera's rows. -/
lemma archiveSyncMerge_roster (camns : List Nat) (threshold : Timestamp)
    (ams : List ArchiveMoment) :
    ∀ (cursors : List (List Timestamp)), camns.length = cursors.length →
      ∀ m ∈ archiveSyncMerge camns threshold ams cursors,
        m.cameraPictures.length = camns.length ∧
        ∃ am ∈ ams, m.timestamp = am.triggerTimestamp ∧
          ∀ i (hi : i < camns.length),
            ∃ pull : Option Timestamp,
              m.cameraPictures[i]? =
                some ⟨pull.getD am.triggerTimestamp, pull,
                      am.rows.filter (fun r => r.camn == camns[i])⟩ := by
  induction ams with
  | nil => intro cursors _ m hm; rw [archiveSyncMerge] at hm; simp at hm
  | cons am rest ih =>
    intro cursors hlen m hm
    rw [archiveSyncMerge] at hm
    rcases List.mem_cons.mp hm with rfl | hmem
    · constructor
      · show ((camns.zip _).map _).length = _
        rw [List.length_map, List.length_zip, List.length_map, ← hlen, min_self]
      · refine ⟨am, List.mem_cons_self _ _, rfl, ?_⟩
        intro i hi
        have hip : i < (cursors.map (pullWithin threshold am.triggerTimestamp)).length := by
          rw [List.length_map, ← hlen]; exact hi
        refine ⟨((cursors.map (pullWithin threshold am.triggerTimestamp))[i]).1, ?_⟩
        show ((camns.zip _).map _)[i]? = _
        rw [List.getElem?_map, getElem?_zip_eq _ _ i hi hip]
        rfl
    · have hlen2 : camns.length =
          ((cursors.map (pullWithin threshold am.triggerTimestamp)).map Prod.snd).length := by
        rw [List.length_map, List.length_map]; exact hlen
      obtain ⟨hl, am2, ham2, hrest⟩ := ih _ hlen2 m hmem
      exact ⟨hl, am2, List.mem_cons_of_mem _ ham2, hrest⟩

/-- C1: every moment emitted by the merge engine — in the free-running
mode and in both archive-driven modes — has exactly one per-camera entry
per roster camera, in roster order, even when a camera contributes no
image for the moment (such an entry holds a `none` image and an empty
detection list). -/
theorem c1_moment_roster_invariant (threshold frameDuration : Timestamp)
    (fuel : Nat) (clock : Timestamp) (cursors : List (List Timestamp))
    (camns : List Nat) (ams : List ArchiveMoment) (vcursors : List (List Timestamp))
    (hlen : camns.length = vcursors.length) :
    (∀ m ∈ freeRunMerge threshold frameDuration fuel clock cursors,
        m.cameraPictures.length = cursors.length ∧
        ∀ i (hi : i < cursors.length),
          ∃ pic, m.cameraPictures[i]? = some pic ∧
            (pic.image = none → pic.thisCamThisFrame = []) ∧
            ∀ f, pic.image = some f → f ∈ cursors[i]) ∧
    (∀ m ∈ archiveMerge camns ams,
        m.cameraPictures.length = camns.length ∧
        ∃ am ∈ ams,
          m = ⟨am.triggerTimestamp,
               camns.map (fun camn =>
                 ⟨am.triggerTimestamp, none, am.rows.filter (fun r => r.camn == camn)⟩),
               some am.triggerTimestamp⟩) ∧
    (∀ m ∈ archiveSyncMerge camns threshold ams vcursors,
        m.cameraPictures.length = camns.length ∧
        ∃ am ∈ ams, m.timestamp = am.triggerTimestamp ∧
          ∀ i (hi : i < camns.length),
            ∃ pull : Option Timestamp,
              m.cameraPictures[i]? =
                some ⟨pull.getD am.triggerTimestamp, pull,
                      am.rows.filter (fun r => r.camn == camns[i])⟩) := by
  refine ⟨freeRunMerge_roster threshold frameDuration fuel clock cursors,
    fun m hm => ?_, archiveSyncMerge_roster camns threshold ams vcursors hlen⟩
  obtain ⟨am, ham, heq⟩ := archiveMerge_mem camns ams m hm
  exact ⟨by rw [heq]; simp, am, ham, heq⟩

/-- Witness for C1 at a concrete input: with two cursors (one of them
already exhausted), the emitted moment has exactly two entries. -/
theorem c1_witness :
    (⟨0, [⟨0, some 0, []⟩, ⟨0, none, []⟩], none⟩ : SyncedPictures).cameraPictures.length =
      [[0], ([] : List Timestamp)].length :=
  ((c1_moment_roster_invariant 2 1 1 0 [[0], []] [3] [] [[5]] rfl).1
    ⟨0, [⟨0, some 0, []⟩, ⟨0, none, []⟩], none⟩ (by decide)).1

/-- Every moment of the free-running merge sits at or after the clock it
was started with. -/
lemma freeRunMerge_clock_le (threshold frameDuration : Timestamp)
    (hfd : 0 ≤ frameDuration) (fuel : Nat) :
    ∀ (clock : Timestamp) (cursors : List (List Timestamp)),
      ∀ m ∈ freeRunMerge threshold frameDuration fuel clock cursors,
        clock ≤ m.timestamp := by
  induction fuel with
  | zero => intro clock cursors m hm; rw [freeRunMerge] at hm; simp at hm
  | succ fuel ih =>
    intro clock cursors m hm
    rw [freeRunMerge] at hm
    by_cases hall : cursors.all List.isEmpty
    · rw [if_pos hall] at hm; simp at hm
    · rw [if_neg hall] at hm
      rcases List.mem_cons.mp hm with rfl | hmem
      · exact le_refl _
      · have := ih (clock + frameDuration) _ m hmem
        linarith

/-- The free-running merge emits strictly increasing timestamps when the
nominal frame duration is positive. -/
lemma freeRunMerge_chain (threshold frameDuration : Timestamp)
    (hfd : 0 < frameDuration) (fuel : Nat) :
    ∀ (clock : Timestamp) (cursors : List (List Timestamp)),
      List.Chain' (fun a b => a.timestamp < b.timestamp)
        (freeRunMerge threshold frameDuration fuel clock cursors) := by
  induction fuel with
  | zero => intro clock cursors; rw [freeRunMerge]; exact List.chain'_nil
  | succ fuel ih =>
    intro clock cursors
    rw [freeRunMerge]
    by_cases hall : cursors.all List.isEmpty
    · rw [if_pos hall]; exact List.chain'_nil
    · rw [if_neg hall]
      refine List.chain'_cons'.mpr ⟨?_, ih _ _⟩
      intro b hb
      have hble := freeRunMerge_clock_le threshold frameDuration (le_of_lt hfd) fuel
        (clock + frameDuration) _ b (List.mem_of_mem_head? hb)
      show clock < b.timestamp
      linarith

/-- The hybrid merge's timestamps are exactly the archive trigger
timestamps. -/
lemma archiveSyncMerge_timestamps (camns : List Nat) (threshold : Timestamp)
    (ams : List ArchiveMoment) :
    ∀ cursors : List (List Timestamp),
      (archiveSyncMerge camns threshold ams cursors).map SyncedPictures.timestamp =
        ams.map ArchiveMoment.triggerTimestamp := by
  induction ams with
  | nil => intro cursors; rfl
  | cons am rest ih =>
    intro cursors
    rw [archiveSyncMerge, List.map_cons, List.map_cons, ih]

/-- C2: in every merge mode the emitted moments are strictly monotonically
increasing in timestamp: adjacent moments `m[i], m[i+1]` always satisfy
`m[i].timestamp < m[i+1].timestamp` (free-running mode advances the clock
by the positive nominal frame duration per moment; archive-driven modes
follow the strictly increasing trigger timestamps). -/
theorem c2_strictly_increasing_timestamps (threshold frameDuration : Timestamp)
    (fuel : Nat) (clock : Timestamp) (cursors : List (List Timestamp))
    (camns : List Nat) (ams : List ArchiveMoment) (vcursors : List (List Timestamp))
    (hfd : 0 < frameDuration)
    (hams : List.Chain' (fun a b => a.triggerTimestamp < b.triggerTimestamp) ams) :
    List.Chain' (fun a b => a.timestamp < b.timestamp)
        (freeRunMerge threshold frameDuration fuel clock cursors) ∧
    List.Chain' (fun a b => a.timestamp < b.timestamp) (archiveMerge camns ams) ∧
    List.Chain' (fun a b => a.timestamp < b.timestamp)
        (archiveSyncMerge camns threshold ams vcursors) := by
  refine ⟨freeRunMerge_chain threshold frameDuration hfd fuel clock cursors, ?_, ?_⟩
  · rw [archiveMerge, List.chain'_map]
    exact hams
  · have h2 : List.Chain' (· < ·)
        ((archiveSyncMerge camns threshold ams vcursors).map SyncedPictures.timestamp) := by
      rw [archiveSyncMerge_timestamps, List.chain'_map]
      exact hams
    rw [List.chain'_map] at h2
    exact h2

/-- Witness for C2 at a concrete input. -/
theorem c2_witness :
    List.Chain' (fun a b => a.timestamp < b.timestamp) (freeRunMerge 0 1 2 0 [[0, 1]]) ∧
    List.Chain' (fun a b => a.timestamp < b.timestamp)
      (archiveMerge [3] [⟨0, []⟩, ⟨5, []⟩]) := by
  have h := c2_strictly_increasing_timestamps 0 1 2 0 [[0, 1]] [3] [⟨0, []⟩, ⟨5, []⟩] [[0]]
    (by decide)
    (by rw [List.chain'_cons]
        exact ⟨by decide, List.chain'_singleton _⟩)
  exact ⟨h.1, h.2.1⟩

end BraidProcessVideo
